import Mathlib

/-!
Shallow embedding of the adaptive-sampling core of the `gryffin` repository
(`random_sampler.py`, `gradient_optimizer.py`, `sample_selector.py`), together
with theorems settling the specified claims about it.

Numerics are modelled over an arbitrary linear ordered field `α` (instantiated
with `ℝ` or `ℚ` in the theorems); the float functions `np.exp` and `**0.5` are
passed in as explicit function parameters `ex` and `sq`, instantiated with
`Real.exp` / `Real.sqrt` where the claims depend on their analytic properties.
Randomness (uniform draws, `np.random.choice`) is modelled by explicit oracle
arguments.  Python runtime failures (raised exceptions) are modelled by
`Option`/`Except` results.
-/

namespace Gryffin

/-- Python runtime values that a user-supplied feasibility predicate
(`known_constraints`) may return.  The sampler keeps a candidate only when the
returned object is the boolean singleton `True` (the source tests
`feasible is True`), so truthy non-boolean values reject the candidate. -/
inductive PyObj : Type
  | pyBool : Bool → PyObj
  | pyInt : Int → PyObj
  | pyStr : String → PyObj
  deriving DecidableEq

section Embedding

variable {α : Type} [LinearOrderedField α]

/-- Pointwise combination of three lists, truncating to the shortest
(mirrors elementwise numpy operations on equal-length vectors). -/
def zip3With {β γ δ ε : Type} (f : β → γ → δ → ε) : List β → List γ → List δ → List ε
  | b :: bs, c :: cs, d :: ds => f b c d :: zip3With f bs cs ds
  | _, _, _ => []

/-- Arithmetic mean of a list, `np.mean` (sum divided by length). -/
def mean (xs : List α) : α := xs.sum / (xs.length : α)

/-- Elementwise minimum of two vectors, `np.minimum`. -/
def elemMin (u v : List α) : List α := List.zipWith (fun a b => min a b) u v

/-- Elementwise absolute difference `np.abs(p - x)`. -/
def absDiffs (p x : List α) : List α := List.zipWith (fun a b => |a - b|) p x

/-- Index of the first occurrence of the maximum, `np.argmax`
(ties broken by the first index encountered). -/
def argmaxAux : List α → Nat → Nat → α → Nat
  | [], _, best, _ => best
  | x :: xs, i, best, bestVal =>
    if bestVal < x then argmaxAux xs (i + 1) i x else argmaxAux xs (i + 1) best bestVal

/-- Stable `np.argmax` over a list (`0` on the empty list, which numpy rejects). -/
def argmax : List α → Nat
  | [] => 0
  | x :: xs => argmaxAux xs 1 0 x

/-! ### RandomSampler (`random_sampler.py`) -/

/-- Sequencing of a list of optional values (`Option` effect of `List.mapM`):
`some` of the list of values when all entries are `some`, else `none`. -/
def optionSeq {β : Type} : List (Option β) → Option (List β)
  | [] => some []
  | o :: os => o.bind (fun v => (optionSeq os).map (fun vs => v :: vs))

/-- Configuration of one parameter: its type tag and bounds
(for categorical parameters `low`/`high` are unused by the perturbation code). -/
structure ParamSpec (α : Type) where
  ptype : String
  low : α
  high : α
  deriving DecidableEq

/-- Embeds `RandomSampler._perturb_single_parameter` for a single entry.
The uniform draw from `[-scale, scale]` is the oracle `u` (theorems constrain
it by `-scale ≤ u ≤ scale`); the draw is then multiplied by the feature range,
added to the reference value, and clamped to the bounds.  Discrete and
categorical entries copy the reference value unchanged.  An unknown parameter
type yields `none`: the source constructs a `GryffinUnknownSettingsError`
without raising it and then fails on the unbound local `perturbed_sample`. -/
def perturbSingleParameter (refValue : α) (paramType : String) (low high scale u : α) :
    Option α :=
  if paramType = "continuous" then
    let sampledValues := u * (high - low)
    let perturbed := refValue + sampledValues
    let perturbed := if perturbed < low then low else perturbed
    let perturbed := if perturbed > high then high else perturbed
    some perturbed
  else if paramType = "categorical" ∨ paramType = "discrete" then
    some refValue
  else
    none

/-- Embeds `RandomSampler._fast_perturb`: each of the `num` returned rows holds,
per parameter, the perturbation of the reference entry.  `noise p k` is the
`k`-th uniform draw for parameter `p` (the source draws a `(num, 1)` column per
parameter and concatenates columns; assembling row-by-row is the same array). -/
def fastPerturb (specs : List (ParamSpec α)) (refSample : List α) (num : Nat) (scale : α)
    (noise : Nat → Nat → α) : Option (List (List α)) :=
  optionSeq ((List.range num).map (fun k =>
    optionSeq ((specs.zip refSample).enum.map (fun pr =>
      perturbSingleParameter pr.2.2 pr.2.1.ptype pr.2.1.low pr.2.1.high scale (noise pr.1 k)))))

/-- Embeds `RandomSampler._draw_single_parameter`.  The per-type random draws
are oracle arguments; an unrecognized type gives `none`, because the source
constructs (but does not raise) an error object and then returns the unbound
local `sampled_values`, which raises `UnboundLocalError` at draw time. -/
def drawSingleParameter (paramType : String) (contDraw catDraw disDraw : List α) :
    Option (List α) :=
  if paramType = "continuous" then some contDraw
  else if paramType = "categorical" then some catDraw
  else if paramType = "discrete" then some disDraw
  else none

/-- Embeds the rejection loop shared by `RandomSampler._slow_draw` and
`RandomSampler._slow_perturb`: while fewer than `num` samples are collected,
take the next candidate produced by the random draws (the oracle stream) and
keep it only when the feasibility predicate returns exactly the Python boolean
`True`.  Returns `none` when the finite oracle stream is exhausted first
(the Python loop would instead keep drawing forever). -/
def slowDrawAux (knownConstraints : List α → PyObj) (num : Nat) :
    List (List α) → List (List α) → Option (List (List α))
  | [], samples => if num ≤ samples.length then some samples else none
  | cand :: rest, samples =>
    if num ≤ samples.length then some samples
    else if knownConstraints cand = PyObj.pyBool true then
      slowDrawAux knownConstraints num rest (samples ++ [cand])
    else
      slowDrawAux knownConstraints num rest samples

/-- Embeds `RandomSampler._slow_draw` with candidate oracle stream `cands`. -/
def slowDraw (knownConstraints : List α → PyObj) (num : Nat) (cands : List (List α)) :
    Option (List (List α)) :=
  slowDrawAux knownConstraints num cands []

/-- Builds one perturbed candidate of `RandomSampler._slow_perturb`
(`u p` is the uniform draw used for parameter `p` in this attempt). -/
def perturbCandidate (specs : List (ParamSpec α)) (refSample : List α) (scale : α)
    (u : Nat → α) : Option (List α) :=
  optionSeq ((specs.zip refSample).enum.map (fun pr =>
    perturbSingleParameter pr.2.2 pr.2.1.ptype pr.2.1.low pr.2.1.high scale (u pr.1)))

/-- Embeds `RandomSampler._slow_perturb`: builds candidates from the noise
oracle stream `us` (one noise function per attempt) and runs the same
keep-only-if-`feasible is True` rejection loop as `_slow_draw`. -/
def slowPerturb (knownConstraints : List α → PyObj) (specs : List (ParamSpec α))
    (refSample : List α) (num : Nat) (scale : α) (us : List (Nat → α)) :
    Option (List (List α)) :=
  (optionSeq (us.map (perturbCandidate specs refSample scale))).bind
    (fun cands => slowDrawAux knownConstraints num cands [])

/-! ### GradientOptimizer (`gradient_optimizer.py`) -/

/-- Embeds `GradientOptimizer._within_bounds`:
`not (np.any(sample < lowers) or np.any(sample > uppers))`. -/
def withinBounds (featureLowers featureUppers sample : List α) : Bool :=
  !((List.zip sample featureLowers).any (fun p => decide (p.1 < p.2)) ||
    (List.zip sample featureUppers).any (fun p => decide (p.1 > p.2)))

/-- Embeds the clamp performed at the top of `GradientOptimizer.optimize`:
`np.where(sample < lowers, lowers, sample)` followed by
`np.where(sample > uppers, uppers, sample)`. -/
def clampRow (featureLowers featureUppers sample : List α) : List α :=
  zip3With (fun x l u =>
    let y := if x < l then l else x
    if y > u then u else y) sample featureLowers featureUppers

/-- Embeds the intent of `GradientOptimizer._optimize_continuous`: take one
Adam update (`getUpdate`, an opaque external step — iteration-indexed to model
the optimizer's adaptive state across calls) and keep it only when the whole
proposal stays within bounds, otherwise keep the previous sample.  The source
line calls `self.within_bounds`, an attribute that does not exist (the method
defined at line 38 is `_within_bounds`), so the Python code raises
`AttributeError` here; this definition models the clearly intended behaviour
with the defined bounds check. -/
def optimizeContinuousStep (getUpdate : List α → List α)
    (featureLowers featureUppers sample : List α) : List α :=
  let proposal := getUpdate sample
  if withinBounds featureLowers featureUppers proposal then proposal else sample

/-- Embeds one iteration of the loop in `GradientOptimizer.optimize`:
a continuous step when any continuous feature is active, then a categorical
step, then a discrete step.  The categorical/discrete sub-optimizers live
outside the repository slice and are modelled as opaque iteration-indexed
update functions. -/
def optimizeIteration (getUpdateCon getUpdateCat getUpdateDis : Nat → List α → List α)
    (anyContinuous anyCategories anyDiscrete : Bool) (featureLowers featureUppers : List α)
    (k : Nat) (optimized : List α) : List α :=
  let o1 := if anyContinuous then
      optimizeContinuousStep (getUpdateCon k) featureLowers featureUppers optimized
    else optimized
  let o2 := if anyCategories then getUpdateCat k o1 else o1
  let o3 := if anyDiscrete then getUpdateDis k o2 else o2
  o3

/-- State of `GradientOptimizer.optimize` after `k` full loop iterations
starting from the clamped sample `s0`. -/
def optimizeState (getUpdateCon getUpdateCat getUpdateDis : Nat → List α → List α)
    (anyContinuous anyCategories anyDiscrete : Bool) (featureLowers featureUppers : List α)
    (s0 : List α) : Nat → List α
  | 0 => s0
  | k + 1 => optimizeIteration getUpdateCon getUpdateCat getUpdateDis
      anyContinuous anyCategories anyDiscrete featureLowers featureUppers k
      (optimizeState getUpdateCon getUpdateCat getUpdateDis
        anyContinuous anyCategories anyDiscrete featureLowers featureUppers s0 k)

/-- Embeds the `for num_iter in range(max_iter)` loop of
`GradientOptimizer.optimize`, instrumented with the number of iterations that
were executed.  `euclid a b` models `np.linalg.norm(a - b)`; the loop breaks
when continuous features are active and that distance drops below `1e-7`
(the comparison is against the pre-iteration vector `sample_copy`, which at
every iteration equals the current vector). -/
def optimizeLoop (getUpdateCon getUpdateCat getUpdateDis : Nat → List α → List α)
    (anyContinuous anyCategories anyDiscrete : Bool) (featureLowers featureUppers : List α)
    (euclid : List α → List α → α) (k : Nat) : Nat → List α → List α × Nat
  | 0, optimized => (optimized, 0)
  | fuel + 1, optimized =>
    let next := optimizeIteration getUpdateCon getUpdateCat getUpdateDis
      anyContinuous anyCategories anyDiscrete featureLowers featureUppers k optimized
    if anyContinuous && decide (euclid optimized next < 1 / 10000000) then (next, 1)
    else
      let r := optimizeLoop getUpdateCon getUpdateCat getUpdateDis
        anyContinuous anyCategories anyDiscrete featureLowers featureUppers
        euclid (k + 1) fuel next
      (r.1, r.2 + 1)

/-- Embeds `GradientOptimizer.optimize` (the `refine` operation of the spec):
clamp the incoming sample into bounds when needed, then run up to `maxIter`
iterations of per-type updates with the convergence break.  Returns the final
vector together with the number of iterations executed. -/
def optimize (getUpdateCon getUpdateCat getUpdateDis : Nat → List α → List α)
    (anyContinuous anyCategories anyDiscrete : Bool) (featureLowers featureUppers : List α)
    (euclid : List α → List α → α) (sample : List α) (maxIter : Nat) : List α × Nat :=
  let s0 := if withinBounds featureLowers featureUppers sample then sample
    else clampRow featureLowers featureUppers sample
  optimizeLoop getUpdateCon getUpdateCat getUpdateDis
    anyContinuous anyCategories anyDiscrete featureLowers featureUppers euclid 0 maxIter s0

/-- Embeds the feature-type dispatch loop of `GradientOptimizer.__init__`
(lines 22-31): build the continuous/categorical/discrete position masks.
An unrecognized type constructs a `GryffinUnknownSettingsError` object whose
reference is immediately discarded — it is never raised — so the loop simply
continues and the feature ends up in no mask. -/
def parsePositions (featureTypes : List String) : List Bool × List Bool × List Bool :=
  featureTypes.foldr (fun t acc =>
    if t = "continuous" then (true :: acc.1, false :: acc.2.1, false :: acc.2.2)
    else if t = "categorical" then (false :: acc.1, true :: acc.2.1, false :: acc.2.2)
    else if t = "discrete" then (false :: acc.1, false :: acc.2.1, true :: acc.2.2)
    else (false :: acc.1, false :: acc.2.1, false :: acc.2.2))
    ([], [], [])

/-- Modelled from the spec: the configuration-error contract of §4.1/§7
("an unrecognized feature type must be reported as a configuration error at
bind time, not silently ignored").  The body follows `parsePositions` except
that the unknown-type branch propagates a `GryffinUnknownSettingsError`
instead of discarding it.  The error-raising behaviour itself is missing from
the code under `src/` (the source merely constructs the error object). -/
def parsePositionsSpec (featureTypes : List String) :
    Except String (List Bool × List Bool × List Bool) :=
  featureTypes.foldr (fun t acc =>
    match acc with
    | Except.error e => Except.error e
    | Except.ok acc =>
      if t = "continuous" then Except.ok (true :: acc.1, false :: acc.2.1, false :: acc.2.2)
      else if t = "categorical" then Except.ok (false :: acc.1, true :: acc.2.1, false :: acc.2.2)
      else if t = "discrete" then Except.ok (false :: acc.1, false :: acc.2.1, true :: acc.2.2)
      else Except.error ("did not understand parameter type " ++ t))
    (Except.ok ([], [], []))

/-! ### SampleSelector (`sample_selector.py`) -/

/-- Embeds the static `SampleSelector.compute_exp_objs`: select the samples of
strategy `samplingParamIdx` and map each to `exp(-acquisition)`.  `ex` stands
for `np.exp` and `evalAcquisition` for the external acquisition evaluator. -/
def computeExpObjs (ex : α → α) (proposals : List (List (List α)))
    (evalAcquisition : List α → Nat → α) (samplingParamIdx : Nat) : List α :=
  let samples := proposals.getD samplingParamIdx []
  samples.map (fun sample => ex (-(evalAcquisition sample samplingParamIdx)))

/-- Chunk sizes of `np.array_split` for a length-`n` axis split into `k`
parts: the first `n % k` chunks get `n / k + 1` entries, the rest `n / k`. -/
def arraySplitSizes (n k : Nat) : List Nat :=
  (List.range k).map (fun i => if i < n % k then n / k + 1 else n / k)

/-- Splits a list into consecutive chunks of the given sizes. -/
def splitBySizes {β : Type} : List Nat → List β → List (List β)
  | [], _ => []
  | s :: ss, xs => xs.take s :: splitBySizes ss (xs.drop s)

/-- Embeds `np.array_split(xs, k)` on one axis. -/
def arraySplit {β : Type} (k : Nat) (xs : List β) : List (List β) :=
  splitBySizes (arraySplitSizes xs.length k) xs

/-- Embeds the parallel branch of `SampleSelector._compute_exp_objs` for one
strategy: split the proposal ensemble along the sample axis into `numCpus`
contiguous chunks, run `compute_exp_objs` on every chunk (one worker each),
and concatenate the per-chunk results by increasing chunk index (the source
joins all workers and reads the shared dict in chunk-index order). -/
def computeExpObjsParallel (ex : α → α) (numCpus : Nat) (proposals : List (List (List α)))
    (evalAcquisition : List α → Nat → α) (samplingParamIdx : Nat) : List α :=
  let proposalsSplits := (List.range numCpus).map
    (fun i => proposals.map (fun row => (arraySplit numCpus row).getD i []))
  (proposalsSplits.map
    (fun split => computeExpObjs ex split evalAcquisition samplingParamIdx)).flatten

/-- Embeds `SampleSelector._compute_exp_objs`: per strategy, use the parallel
path when more than one CPU is configured and the sequential path otherwise. -/
def computeExpObjsAll (ex : α → α) (numCpus : Nat) (proposals : List (List (List α)))
    (evalAcquisition : List α → Nat → α) (numStrategies : Nat) : List (List α) :=
  (List.range numStrategies).map (fun samplingParamIdx =>
    if 1 < numCpus then
      computeExpObjsParallel ex numCpus proposals evalAcquisition samplingParamIdx
    else
      computeExpObjs ex proposals evalAcquisition samplingParamIdx)

/-- Elementwise `np.amin([np.abs(proposal - x) for x in rows], axis=0)`:
per-feature minimum absolute distance from `proposal` to the rows
(`[]` for an empty row list, where numpy would raise). -/
def aminAbsDiffs (proposal : List α) : List (List α) → List α
  | [] => []
  | x :: xs => xs.foldl (fun acc y => elemMin acc (absDiffs proposal y)) (absDiffs proposal x)

/-- Embeds the per-candidate diversity factor of `SampleSelector._select`
(lines 201-212): the per-feature minimum absolute distance to the observed
samples — intersected elementwise with the distance to the already selected
samples when any exist — is turned into
`min(1, mean(exp(2 * (minDistance - charDists) / featureRanges)))`. -/
def divCrit (ex : α → α) (obsParams selectedSamples : List (List α))
    (charDists featureRanges : List α) (proposal : List α) : α :=
  let obsMinDistance := aminAbsDiffs proposal obsParams
  let minDistance :=
    if 0 < selectedSamples.length then
      elemMin (aminAbsDiffs proposal selectedSamples) obsMinDistance
    else obsMinDistance
  min 1 (mean (zip3With (fun d c r => ex (2 * (d - c) / r)) minDistance charDists featureRanges))

/-- Written from the spec sentence of §4.3 step 3 for comparison with the
code's `divCrit`: "the mean over features of
`min(1, exp(2·(minDistance − characteristicDistance)/featureRange))`, where
`minDistance` is the per-feature minimum absolute distance to the nearest of
(all observed samples ∪ all samples already selected so far in this round)". -/
def divCritSpecMeanOfMin (ex : α → α) (obsParams selectedSamples : List (List α))
    (charDists featureRanges : List α) (proposal : List α) : α :=
  let minDistance := aminAbsDiffs proposal (obsParams ++ selectedSamples)
  mean (zip3With (fun d c r => min 1 (ex (2 * (d - c) / r))) minDistance charDists featureRanges)

/-- Normalizes one row into the unit range per feature:
`(x - lowers) / (uppers - lowers)`. -/
def normRow (paramLowers paramUppers row : List α) : List α :=
  zip3With (fun x l u => (x - l) / (u - l)) row paramLowers paramUppers

/-- Minimum over the observed (normalized) samples of the squared Euclidean
distance to a (normalized) proposal — `np.amin` of the per-observation
`np.sum((obs - proposal)**2, axis=1)` values (`0` for no observations, where
numpy would raise). -/
def minSqDistToObs (obsNorm : List (List α)) (p : List α) : α :=
  match obsNorm.map (fun x => ((List.zipWith (fun a b => a - b) x p).map (fun d => d ^ 2)).sum) with
  | [] => 0
  | d :: ds => ds.foldl (fun acc v => min acc v) d

/-- Embeds the near-duplicate suppression of `SampleSelector._select`
(lines 170-182): zero the reward of every proposal whose normalized squared
distance to the closest observation is below `1e-8`. -/
def suppressRow (obsNorm : List (List α)) (expRow : List α) (propsNormRow : List (List α)) :
    List α :=
  List.zipWith (fun e p => if minSqDistToObs obsNorm p < 1 / 100000000 then 0 else e)
    expRow propsNormRow

/-- One slot of the greedy collection loop of `SampleSelector._select`
(lines 191-225) for strategy `stratIdx`: compute the diversity factors of the
strategy's proposals against observations and already selected samples,
reweight the strategy's rewards, pick the stable argmax, append that proposal
to the selected samples and zero its reward. -/
def selectSlot (ex : α → α) (proposals : List (List (List α))) (obsParams : List (List α))
    (charDists featureRanges : List α) (stratIdx : Nat)
    (state : List (List α) × List (List α)) : List (List α) × List (List α) :=
  let expObjs := state.1
  let selectedSamples := state.2
  let batchProposals := proposals.getD stratIdx []
  let divCrits := batchProposals.map (divCrit ex obsParams selectedSamples charDists featureRanges)
  let expRow := expObjs.getD stratIdx []
  let reweightedRewards := List.zipWith (fun a b => a * b) expRow divCrits
  let largestRewardIndex := argmax reweightedRewards
  let newSample := batchProposals.getD largestRewardIndex []
  (expObjs.set stratIdx (expRow.set largestRewardIndex 0), selectedSamples ++ [newSample])

/-- The full greedy collection loop of `SampleSelector._select`: for every
batch slot and every strategy in order, run `selectSlot`. -/
def selectSamplesLoop (ex : α → α) (numBatches numStrategies : Nat)
    (proposals : List (List (List α))) (obsParams : List (List α))
    (charDists featureRanges : List α) (expObjs0 : List (List α)) : List (List α) :=
  ((List.range numBatches).foldl
    (fun st _ => (List.range numStrategies).foldl
      (fun st i => selectSlot ex proposals obsParams charDists featureRanges i st) st)
    (expObjs0, [])).2

/-- Embeds `SampleSelector._select`: compute the characteristic distances
`featureRanges / sqrt(numObs)` (`sq` stands for the float square root),
score all proposals (`exp(-acquisition)`), suppress near-duplicates of the
observations in normalized space, and run the greedy diversity-penalized
collection loop. -/
def selectCore (ex sq : α → α) (numBatches : Nat) (proposals : List (List (List α)))
    (evalAcquisition : List α → Nat → α) (numStrategies : Nat) (obsParams : List (List α))
    (featureRanges paramLowers paramUppers : List α) (numCpus : Nat) : List (List α) :=
  let numObs := obsParams.length
  let charDists := featureRanges.map (fun r => r / sq (numObs : α))
  let expObjs := computeExpObjsAll ex numCpus proposals evalAcquisition numStrategies
  let obsParamsNorm := obsParams.map (normRow paramLowers paramUppers)
  let proposalsNorm := proposals.map (fun row => row.map (normRow paramLowers paramUppers))
  let expObjs := (List.range numStrategies).map (fun i =>
    suppressRow obsParamsNorm (expObjs.getD i []) (proposalsNorm.getD i []))
  selectSamplesLoop ex numBatches numStrategies proposals obsParams charDists featureRanges expObjs

/-- Lexicographic comparison of two rows, used to model the row ordering of
`np.unique(..., axis=0)`. -/
def rowLe : List α → List α → Bool
  | [], _ => true
  | _ :: _, [] => false
  | a :: as, b :: bs => if a < b then true else if b < a then false else rowLe as bs

/-- Insertion into a row list sorted by `rowLe`. -/
def insertSortedRow (x : List α) : List (List α) → List (List α)
  | [] => [x]
  | y :: ys => if rowLe x y then x :: y :: ys else y :: insertSortedRow x ys

/-- Insertion sort of rows by `rowLe`. -/
def sortRows : List (List α) → List (List α)
  | [] => []
  | x :: xs => insertSortedRow x (sortRows xs)

/-- Embeds `np.unique(samples, axis=0)`: the distinct rows in sorted order. -/
def uniqueRows (xs : List (List α)) : List (List α) := sortRows xs.dedup

/-- Embeds the repeated `np.delete` loop of `SampleSelector.select`: drop from
the pool every row equal to one of the given rows. -/
def removeMatchingRows (pool rows : List (List α)) : List (List α) :=
  rows.foldl (fun p s => p.filter (fun r => r ≠ s)) pool

/-- Embeds `np.random.choice(n, size=missingSize, replace=False)` with the
drawn indices supplied by the oracle `idx`: numpy raises (modelled by `none`)
on a negative size or a size exceeding the population, and the oracle must
provide exactly `size` distinct in-range indices. -/
def npChoiceNoReplace (n : Nat) (size : Int) (idx : List Nat) : Option (List Nat) :=
  if size < 0 then none
  else if (n : Int) < size then none
  else if idx.length = size.toNat ∧ idx.Nodup ∧ ∀ i ∈ idx, i < n then some idx
  else none

/-- Embeds `SampleSelector.select` (lines 41-105, timing and logging elided).
`allOptionsOpt` is `self.all_options` (`none` models a selector constructed
without an option pool, where `len(self.all_options)` raises `TypeError`);
`paramTypes` are the configured parameter types; `choiceIdx` is the oracle for
the backfill `np.random.choice`.  After the greedy pass: in degraded mode
(pool smaller than the number of strategies) the raw samples are returned;
otherwise the distinct rows are taken and, when their count differs from the
number of strategies, the batch is padded from the option pool (from which, in
a fully categorical space, the distinct selections were first removed). -/
def select (ex sq : α → α) (numBatches : Nat) (proposals : List (List (List α)))
    (evalAcquisition : List α → Nat → α) (numStrategies : Nat) (obsParams : List (List α))
    (featureRanges paramLowers paramUppers : List α) (paramTypes : List String)
    (numCpus : Nat) (allOptionsOpt : Option (List (List α))) (choiceIdx : List Nat) :
    Option (List (List α)) :=
  let samples := selectCore ex sq numBatches proposals evalAcquisition numStrategies obsParams
    featureRanges paramLowers paramUppers numCpus
  match allOptionsOpt with
  | none => none
  | some allOptions =>
    let degraded := allOptions.length < numStrategies
    let uniqueSamples := if degraded then samples else uniqueRows samples
    let isBatchDuplicate := if degraded then false else decide (uniqueSamples.length ≠ numStrategies)
    let allOptions1 := if paramTypes.all (fun t => t = "categorical") then
        removeMatchingRows allOptions uniqueSamples
      else allOptions
    if isBatchDuplicate then
      let missingSize : Int := (numStrategies : Int) - (uniqueSamples.length : Int)
      match npChoiceNoReplace allOptions1.length missingSize choiceIdx with
      | none => none
      | some idx =>
        let missingSamples := idx.map (fun i => allOptions1.getD i [])
        some (uniqueSamples ++ missingSamples)
    else
      some uniqueSamples

/-- Verification predicate for the bounds claims: every entry of `s` at an
index marked `true` in `mask` (the continuous positions) lies within its
feature bounds. -/
def maskedInBounds (featureLowers featureUppers : List α) (mask : List Bool) (n : Nat)
    (s : List α) : Prop :=
  ∀ i, i < n → mask.getD i false = true →
    featureLowers.getD i 0 ≤ s.getD i 0 ∧ s.getD i 0 ≤ featureUppers.getD i 0

end Embedding

section Theorems

variable {α : Type} [LinearOrderedField α]

/-! ### Helper lemmas -/

theorem slowDrawAux_spec (kc : List α → PyObj) (num : Nat) :
    ∀ (cands acc out : List (List α)), acc.length ≤ num →
      (∀ s ∈ acc, kc s = PyObj.pyBool true) →
      slowDrawAux kc num cands acc = some out →
      out.length = num ∧ ∀ s ∈ out, kc s = PyObj.pyBool true := by
  intro cands
  induction cands with
  | nil =>
    intro acc out hle hacc h
    simp only [slowDrawAux] at h
    split at h
    · cases h
      exact ⟨Nat.le_antisymm hle (by assumption), hacc⟩
    · cases h
  | cons c rest ih =>
    intro acc out hle hacc h
    simp only [slowDrawAux] at h
    split at h
    · cases h
      exact ⟨Nat.le_antisymm hle (by assumption), hacc⟩
    · rename_i hnum
      split at h
      · rename_i htrue
        refine ih (acc ++ [c]) out ?_ ?_ h
        · have : acc.length < num := Nat.lt_of_not_le hnum
          simpa using this
        · intro s hs
          rcases List.mem_append.mp hs with hs | hs
          · exact hacc s hs
          · simp only [List.mem_singleton] at hs
            subst hs; exact htrue
      · exact ih acc out hle hacc h

theorem optionSeq_map_of_forall_some {β γ δ : Type} (f : δ → Option γ) (g : δ → γ)
    (l : List δ) (h : ∀ x ∈ l, f x = some (g x)) :
    optionSeq (l.map f) = some (l.map g) := by
  induction l with
  | nil => rfl
  | cons x xs ih =>
    simp [List.map_cons, optionSeq, h x (List.mem_cons_self x xs),
      ih (fun y hy => h y (List.mem_cons_of_mem x hy))]

theorem optionSeq_eq_some {β : Type} :
    ∀ (l : List (Option β)) (r : List β), optionSeq l = some r → l = r.map some := by
  intro l
  induction l with
  | nil => intro r h; simp only [optionSeq] at h; cases h; rfl
  | cons o os ih =>
    intro r h
    simp only [optionSeq, Option.bind_eq_some, Option.map_eq_some'] at h
    obtain ⟨v, hv, vs, hvs, hr⟩ := h
    subst hr hv
    simp [ih vs hvs]

theorem map_constant_eq_replicate {β γ : Type} (l : List β) (c : γ) :
    l.map (fun _ => c) = List.replicate l.length c := by
  induction l <;> simp [List.replicate_succ, *]

theorem enumFrom_map_snd_comp {β γ : Type} (g : β → γ) : ∀ (n : Nat) (l : List β),
    (l.enumFrom n).map (fun pr => g pr.2) = l.map g := by
  intro n l
  induction l generalizing n with
  | nil => rfl
  | cons x xs ih => simp [List.enumFrom, ih]

theorem length_enumFrom_eq {β : Type} : ∀ (n : Nat) (l : List β),
    (l.enumFrom n).length = l.length := by
  intro n l
  induction l generalizing n with
  | nil => rfl
  | cons x xs ih => simp [List.enumFrom, ih]

theorem mem_enumFrom_snd {β : Type} : ∀ (n : Nat) (l : List β) (pr : Nat × β),
    pr ∈ l.enumFrom n → pr.2 ∈ l := by
  intro n l
  induction l generalizing n with
  | nil => intro pr h; cases h
  | cons x xs ih =>
    intro pr h
    rcases List.mem_cons.mp h with h | h
    · subst h; exact List.mem_cons_self _ _
    · exact List.mem_cons_of_mem _ (ih (n + 1) pr h)

theorem perturbSingleParameter_fixed_continuous (ref low high : α)
    (hlow : low ≤ ref) (hhigh : ref ≤ high) :
    perturbSingleParameter ref "continuous" low high 0 0 = some ref := by
  simp only [perturbSingleParameter, if_pos rfl, zero_mul, add_zero,
    if_neg (not_lt.mpr hlow), gt_iff_lt, if_neg (not_lt.mpr hhigh)]
  simp

theorem perturbSingleParameter_cat_dis (ref low high scale u : α) (t : String)
    (ht : t = "categorical" ∨ t = "discrete") :
    perturbSingleParameter ref t low high scale u = some ref := by
  rcases ht with ht | ht <;> subst ht <;> simp [perturbSingleParameter]

/-! ### Claim theorems: RandomSampler -/

/-- C8: `perturb` with `scale = 0` returns the reference sample unchanged —
every returned row equals the reference entries — given the §3 sample
invariant that continuous reference entries respect their bounds and given
that the uniform draw lies in `[-scale, scale] = [-0, 0]` (first conjunct);
and for every scale value, the categorical and discrete entries of every
returned row equal the corresponding reference entries (second conjunct). -/
theorem fastPerturb_reference_preservation (specs : List (ParamSpec α)) (refSample : List α)
    (num : Nat) :
    (∀ noise : Nat → Nat → α, (∀ p k, -(0 : α) ≤ noise p k ∧ noise p k ≤ 0) →
      (∀ sp ∈ specs, sp.ptype = "continuous" ∨ sp.ptype = "categorical" ∨
        sp.ptype = "discrete") →
      (∀ pr ∈ specs.zip refSample, pr.1.ptype = "continuous" →
        pr.1.low ≤ pr.2 ∧ pr.2 ≤ pr.1.high) →
      fastPerturb specs refSample num 0 noise =
        some (List.replicate num ((specs.zip refSample).map (fun pr => pr.2)))) ∧
    (∀ (scale : α) (noise : Nat → Nat → α) (out : List (List α)) (row : List α) (i : Nat)
      (d : ParamSpec α × α),
      fastPerturb specs refSample num scale noise = some out → row ∈ out →
      i < (specs.zip refSample).length →
      (((specs.zip refSample).getD i d).1.ptype = "categorical" ∨
        ((specs.zip refSample).getD i d).1.ptype = "discrete") →
      row.getD i 0 = ((specs.zip refSample).getD i d).2) := by
  constructor
  · intro noise hn htypes hb
    have hu : ∀ p k, noise p k = (0 : α) := by
      intro p k
      exact le_antisymm (hn p k).2 (by simpa using (hn p k).1)
    have hsnd : ((specs.zip refSample).enum).map (fun pr => pr.2.2) =
        (specs.zip refSample).map (fun pr => pr.2) :=
      enumFrom_map_snd_comp (fun q => q.2) 0 (specs.zip refSample)
    have hinner : ∀ k ∈ List.range num,
        optionSeq (((specs.zip refSample).enum).map (fun pr =>
          perturbSingleParameter pr.2.2 pr.2.1.ptype pr.2.1.low pr.2.1.high 0 (noise pr.1 k))) =
        some ((specs.zip refSample).map (fun pr => pr.2)) := by
      intro k _
      rw [optionSeq_map_of_forall_some (β := α) _ (fun pr => pr.2.2)]
      · rw [hsnd]
      · intro pr hpr
        have hmem : pr.2 ∈ specs.zip refSample := mem_enumFrom_snd 0 _ pr hpr
        have hsp : pr.2.1 ∈ specs := (List.of_mem_zip hmem).1
        rw [hu pr.1 k]
        rcases htypes pr.2.1 hsp with ht | ht
        · rw [ht]
          exact perturbSingleParameter_fixed_continuous _ _ _
            ((hb pr.2 hmem ht).1) ((hb pr.2 hmem ht).2)
        · exact perturbSingleParameter_cat_dis _ _ _ _ _ _ ht
    unfold fastPerturb
    rw [optionSeq_map_of_forall_some (β := α) _
      (fun _ => (specs.zip refSample).map (fun pr => pr.2)) (List.range num) hinner,
      map_constant_eq_replicate, List.length_range]
  · intro scale noise out row i d hfp hrow hi htype
    unfold fastPerturb at hfp
    have houter := optionSeq_eq_some _ out hfp
    have hmem : some row ∈ (List.range num).map (fun k =>
        optionSeq (((specs.zip refSample).enum).map (fun pr =>
          perturbSingleParameter pr.2.2 pr.2.1.ptype pr.2.1.low pr.2.1.high scale
            (noise pr.1 k)))) := by
      rw [houter]
      exact List.mem_map_of_mem some hrow
    obtain ⟨k, -, hinner⟩ := List.mem_map.mp hmem
    have hin := optionSeq_eq_some _ row hinner
    have hlen : ((specs.zip refSample).enum).length = row.length := by
      have := congrArg List.length hin
      simpa using this
    have hlenz : ((specs.zip refSample).enum).length = (specs.zip refSample).length := by
      simp [List.enum, length_enumFrom_eq]
    have hie : i < (((specs.zip refSample).enum).map (fun pr =>
        perturbSingleParameter pr.2.2 pr.2.1.ptype pr.2.1.low pr.2.1.high scale
          (noise pr.1 k))).length := by
      simp only [List.length_map]; omega
    have hirow : i < row.length := by omega
    have key := List.getElem_of_eq hin hie
    rw [List.getElem_map, List.getElem_map] at key
    have henum : ((specs.zip refSample).enum)[i] = (i, (specs.zip refSample)[i]) := by
      simp [List.getElem_enum]
    rw [henum] at key
    rw [← List.getD_eq_getElem (specs.zip refSample) d hi] at key
    rw [perturbSingleParameter_cat_dis _ _ _ _ _ _ htype] at key
    rw [List.getD_eq_getElem row 0 hirow]
    exact (Option.some_injective _ key.symm)

theorem fastPerturb_reference_preservation_witness :
    ((∀ p k : Nat, -(0 : ℚ) ≤ (fun _ _ => (0 : ℚ)) p k ∧ (fun _ _ => (0 : ℚ)) p k ≤ 0) ∧
      (∀ sp ∈ [ParamSpec.mk "continuous" (0 : ℚ) 4, ParamSpec.mk "categorical" 0 3],
        sp.ptype = "continuous" ∨ sp.ptype = "categorical" ∨ sp.ptype = "discrete") ∧
      (∀ pr ∈ [ParamSpec.mk "continuous" (0 : ℚ) 4,
          ParamSpec.mk "categorical" 0 3].zip [(1 : ℚ), 2],
        pr.1.ptype = "continuous" → pr.1.low ≤ pr.2 ∧ pr.2 ≤ pr.1.high)) ∧
    fastPerturb [ParamSpec.mk "continuous" (0 : ℚ) 4, ParamSpec.mk "categorical" 0 3]
      [(1 : ℚ), 2] 2 0 (fun _ _ => 0) =
      some (List.replicate 2
        (([ParamSpec.mk "continuous" (0 : ℚ) 4, ParamSpec.mk "categorical" 0 3].zip
          [(1 : ℚ), 2]).map (fun pr => pr.2))) :=
  ⟨⟨fun _ _ => by norm_num, by decide, by decide⟩,
    (fastPerturb_reference_preservation _ _ 2).1 (fun _ _ => 0)
      (fun _ _ => by norm_num) (by decide) (by decide)⟩

/-- C7: for every count and every feasibility predicate under which the
rejection loop terminates (modelled by `slowDraw` returning `some` on the
candidate oracle stream), constrained `draw(count)` returns exactly `count`
sample vectors and every returned vector satisfies the feasibility predicate
(the predicate returned the Python boolean `True` on it). -/
theorem slowDraw_count_and_feasibility (kc : List α → PyObj) (num : Nat)
    (cands out : List (List α)) (h : slowDraw kc num cands = some out) :
    out.length = num ∧ ∀ s ∈ out, kc s = PyObj.pyBool true :=
  slowDrawAux_spec kc num cands [] out (Nat.zero_le num) (by simp) h

theorem slowDraw_count_and_feasibility_witness :
    (slowDraw (fun s : List ℚ => PyObj.pyBool (decide (s ≠ [])))
      2 ([[(1 : ℚ)], [], [2]] : List (List ℚ)) =
      (some [[1], [2]] : Option (List (List ℚ)))) ∧
    ([[(1 : ℚ)], [2]].length = 2 ∧
      ∀ s ∈ [[(1 : ℚ)], [2]], (fun s : List ℚ => PyObj.pyBool (decide (s ≠ []))) s =
        PyObj.pyBool true) :=
  ⟨by decide, slowDraw_count_and_feasibility (fun s : List ℚ => PyObj.pyBool (decide (s ≠ [])))
    2 ([[(1 : ℚ)], [], [2]] : List (List ℚ)) [[1], [2]] (by decide)⟩

/-- C10: in constrained draw and constrained perturb, a candidate enters the
result only when the feasibility predicate returns the exact Python boolean
`True` (first two conjuncts), and a candidate on which the predicate returns
anything else — including truthy non-boolean values — is skipped, the loop
moving on to the next drawn candidate (third conjunct). -/
theorem rejection_accepts_exactly_literal_true (kc : List α → PyObj) (num : Nat) :
    (∀ (cands out : List (List α)), slowDraw kc num cands = some out →
      ∀ s ∈ out, kc s = PyObj.pyBool true) ∧
    (∀ (specs : List (ParamSpec α)) (refSample : List α) (scale : α) (us : List (Nat → α))
      (out : List (List α)), slowPerturb kc specs refSample num scale us = some out →
      ∀ s ∈ out, kc s = PyObj.pyBool true) ∧
    (∀ (cand : List α) (rest acc : List (List α)), kc cand ≠ PyObj.pyBool true →
      acc.length < num →
      slowDrawAux kc num (cand :: rest) acc = slowDrawAux kc num rest acc) := by
  refine ⟨?_, ?_, ?_⟩
  · intro cands out h
    exact (slowDraw_count_and_feasibility kc num cands out h).2
  · intro specs refSample scale us out h
    simp only [slowPerturb, Option.bind_eq_some] at h
    obtain ⟨cands, -, h⟩ := h
    exact (slowDrawAux_spec kc num cands [] out (Nat.zero_le num) (by simp) h).2
  · intro cand rest acc hfalse hlt
    simp only [slowDrawAux, if_neg (Nat.not_le_of_lt hlt), if_neg hfalse]

theorem rejection_accepts_exactly_literal_true_witness :
    (∀ (cands out : List (List ℚ)),
      slowDraw (fun _ => PyObj.pyInt 1) 1 cands = some out →
      ∀ s ∈ out, (fun _ : List ℚ => PyObj.pyInt 1) s = PyObj.pyBool true) ∧
    (∀ (specs : List (ParamSpec ℚ)) (refSample : List ℚ) (scale : ℚ) (us : List (Nat → ℚ))
      (out : List (List ℚ)),
      slowPerturb (fun _ => PyObj.pyInt 1) specs refSample 1 scale us = some out →
      ∀ s ∈ out, (fun _ : List ℚ => PyObj.pyInt 1) s = PyObj.pyBool true) ∧
    (∀ (cand : List ℚ) (rest acc : List (List ℚ)),
      (fun _ : List ℚ => PyObj.pyInt 1) cand ≠ PyObj.pyBool true →
      acc.length < 1 →
      slowDrawAux (fun _ => PyObj.pyInt 1) 1 (cand :: rest) acc =
        slowDrawAux (fun _ => PyObj.pyInt 1) 1 rest acc) :=
  rejection_accepts_exactly_literal_true (fun _ => PyObj.pyInt 1) 1

/-! ### Claim theorems: GradientOptimizer configuration errors -/

/-- C5: an unrecognized feature type is NOT reported at construction time:
the position-parsing loop of `GradientOptimizer.__init__` silently leaves the
feature out of every mask (first conjunct — the code runs to completion on the
unknown type `"gaussian_process"`), whereas the spec-mandated behaviour
(`parsePositionsSpec`, modelled from the spec) propagates a configuration
error (second conjunct); the sampler's per-parameter draw dispatch likewise
fails only at draw time with an unbound local (third conjunct, `none`), not
with a configuration error at construction. -/
theorem unknown_feature_type_silently_ignored :
    parsePositions ["continuous", "gaussian_process"] =
      ([true, false], [false, false], [false, false]) ∧
    parsePositionsSpec ["continuous", "gaussian_process"] =
      Except.error "did not understand parameter type gaussian_process" ∧
    drawSingleParameter "gaussian_process" [(1 : ℚ)] [2] [3] = none := by
  refine ⟨by decide, ?_, by decide⟩
  simp [parsePositionsSpec]

/-! ### Claim theorems: GradientOptimizer bounds and convergence -/

theorem zip3With_length {β γ δ ε : Type} (f : β → γ → δ → ε) :
    ∀ (a : List β) (b : List γ) (c : List δ),
      (zip3With f a b c).length = min a.length (min b.length c.length) := by
  intro a
  induction a with
  | nil => intro b c; cases b <;> cases c <;> simp [zip3With]
  | cons x xs ih =>
    intro b c
    cases b with
    | nil => simp [zip3With]
    | cons y ys =>
      cases c with
      | nil => simp [zip3With]
      | cons z zs =>
        simp only [zip3With, List.length_cons, ih]
        omega

theorem zip3With_getD {β γ δ ε : Type} (f : β → γ → δ → ε) (da : β) (db : γ) (dc : δ)
    (de : ε) : ∀ (a : List β) (b : List γ) (c : List δ) (i : Nat),
      i < a.length → i < b.length → i < c.length →
      (zip3With f a b c).getD i de = f (a.getD i da) (b.getD i db) (c.getD i dc) := by
  intro a
  induction a with
  | nil => intro b c i h _ _; simp at h
  | cons x xs ih =>
    intro b c i ha hb hc
    cases b with
    | nil => simp at hb
    | cons y ys =>
      cases c with
      | nil => simp at hc
      | cons z zs =>
        cases i with
        | zero => rfl
        | succ j =>
          simp only [zip3With, List.getD_cons_succ]
          exact ih ys zs j (by simpa using ha) (by simpa using hb) (by simpa using hc)

theorem withinBounds_iff (featureLowers featureUppers s : List α) (n : Nat)
    (hL : featureLowers.length = n) (hU : featureUppers.length = n) (hs : s.length = n) :
    withinBounds featureLowers featureUppers s = true ↔
      ∀ i, i < n → featureLowers.getD i 0 ≤ s.getD i 0 ∧ s.getD i 0 ≤ featureUppers.getD i 0 := by
  unfold withinBounds
  rw [Bool.not_eq_true', Bool.or_eq_false_iff, List.any_eq_false, List.any_eq_false]
  have hzl : (s.zip featureLowers).length = n := by rw [List.length_zip]; omega
  have hzu : (s.zip featureUppers).length = n := by rw [List.length_zip]; omega
  constructor
  · rintro ⟨h1, h2⟩ i hi
    have hiL : i < (s.zip featureLowers).length := by omega
    have hiU : i < (s.zip featureUppers).length := by omega
    have m1 := h1 ((s.zip featureLowers).get ⟨i, hiL⟩) (List.get_mem _ _ hiL)
    have m2 := h2 ((s.zip featureUppers).get ⟨i, hiU⟩) (List.get_mem _ _ hiU)
    rw [List.get_eq_getElem, List.getElem_zip] at m1 m2
    simp only [decide_eq_true_eq] at m1 m2
    rw [List.getD_eq_getElem _ _ (by omega : i < featureLowers.length),
      List.getD_eq_getElem _ _ (by omega : i < featureUppers.length),
      List.getD_eq_getElem _ _ (by omega : i < s.length)]
    exact ⟨not_lt.mp m1, not_lt.mp m2⟩
  · intro h
    constructor
    · intro pr hpr
      obtain ⟨i, hlt, heq⟩ := List.mem_iff_getElem.mp hpr
      rw [List.getElem_zip] at heq
      subst heq
      have := (h i (by omega)).1
      rw [List.getD_eq_getElem _ _ (by omega : i < featureLowers.length),
        List.getD_eq_getElem _ _ (by omega : i < s.length)] at this
      simp only [decide_eq_true_eq]
      exact not_lt.mpr this
    · intro pr hpr
      obtain ⟨i, hlt, heq⟩ := List.mem_iff_getElem.mp hpr
      rw [List.getElem_zip] at heq
      subst heq
      have := (h i (by omega)).2
      rw [List.getD_eq_getElem _ _ (by omega : i < featureUppers.length),
        List.getD_eq_getElem _ _ (by omega : i < s.length)] at this
      simp only [decide_eq_true_eq]
      exact not_lt.mpr this

theorem clampRow_length (featureLowers featureUppers s : List α) (n : Nat)
    (hL : featureLowers.length = n) (hU : featureUppers.length = n) (hs : s.length = n) :
    (clampRow featureLowers featureUppers s).length = n := by
  unfold clampRow
  rw [zip3With_length]
  omega

theorem clampRow_bounds (featureLowers featureUppers s : List α) (n : Nat)
    (hL : featureLowers.length = n) (hU : featureUppers.length = n) (hs : s.length = n)
    (hLU : ∀ i, i < n → featureLowers.getD i 0 ≤ featureUppers.getD i 0) :
    ∀ i, i < n → featureLowers.getD i 0 ≤ (clampRow featureLowers featureUppers s).getD i 0 ∧
      (clampRow featureLowers featureUppers s).getD i 0 ≤ featureUppers.getD i 0 := by
  intro i hi
  unfold clampRow
  rw [zip3With_getD _ 0 0 0 0 _ _ _ i (by omega) (by omega) (by omega)]
  have hlu := hLU i hi
  set x := s.getD i 0
  set l := featureLowers.getD i 0
  set u := featureUppers.getD i 0
  by_cases h1 : x < l
  · simp only [if_pos h1]
    by_cases h2 : l > u
    · simp only [if_pos h2]; exact ⟨hlu, le_refl u⟩
    · simp only [if_neg h2]; exact ⟨le_refl l, not_lt.mp h2⟩
  · simp only [if_neg h1]
    by_cases h2 : x > u
    · simp only [if_pos h2]; exact ⟨hlu, le_refl u⟩
    · simp only [if_neg h2]; exact ⟨not_lt.mp h1, not_lt.mp h2⟩

theorem optimizeIteration_preserves
    (con cat dis : Nat → List α → List α) (anyCon anyCat anyDis : Bool)
    (featureLowers featureUppers : List α) (mask : List Bool) (n : Nat)
    (hL : featureLowers.length = n) (hU : featureUppers.length = n)
    (hconlen : ∀ k s, (con k s).length = s.length)
    (hcatlen : ∀ k s, (cat k s).length = s.length)
    (hcatfix : ∀ k s i, i < n → mask.getD i false = true → (cat k s).getD i 0 = s.getD i 0)
    (hdislen : ∀ k s, (dis k s).length = s.length)
    (hdisfix : ∀ k s i, i < n → mask.getD i false = true → (dis k s).getD i 0 = s.getD i 0)
    (k : Nat) (s : List α) (hs : s.length = n)
    (hin : maskedInBounds featureLowers featureUppers mask n s) :
    (optimizeIteration con cat dis anyCon anyCat anyDis featureLowers featureUppers k s).length
      = n ∧
    maskedInBounds featureLowers featureUppers mask n
      (optimizeIteration con cat dis anyCon anyCat anyDis featureLowers featureUppers k s) := by
  unfold optimizeIteration
  have step1 : ((if anyCon then
        optimizeContinuousStep (con k) featureLowers featureUppers s else s)).length = n ∧
      maskedInBounds featureLowers featureUppers mask n
        (if anyCon then optimizeContinuousStep (con k) featureLowers featureUppers s else s) := by
    cases anyCon with
    | false => exact ⟨hs, hin⟩
    | true =>
      simp only [if_pos trivial, ite_true]
      unfold optimizeContinuousStep
      by_cases hw : withinBounds featureLowers featureUppers (con k s) = true
      · rw [if_pos hw]
        have hplen : (con k s).length = n := by rw [hconlen]; omega
        refine ⟨hplen, ?_⟩
        intro i hi _
        exact (withinBounds_iff featureLowers featureUppers (con k s) n hL hU hplen).mp hw i hi
      · rw [if_neg hw]
        exact ⟨hs, hin⟩
  set o1 := if anyCon then optimizeContinuousStep (con k) featureLowers featureUppers s else s
  have step2 : ((if anyCat then cat k o1 else o1)).length = n ∧
      maskedInBounds featureLowers featureUppers mask n (if anyCat then cat k o1 else o1) := by
    cases anyCat with
    | false => exact step1
    | true =>
      simp only [ite_true]
      refine ⟨by rw [hcatlen]; exact step1.1, ?_⟩
      intro i hi hm
      rw [hcatfix k o1 i hi hm]
      exact step1.2 i hi hm
  set o2 := if anyCat then cat k o1 else o1
  cases anyDis with
  | false => exact step2
  | true =>
    simp only [ite_true]
    refine ⟨by rw [hdislen]; exact step2.1, ?_⟩
    intro i hi hm
    rw [hdisfix k o2 i hi hm]
    exact step2.2 i hi hm

theorem optimizeLoop_preserves
    (con cat dis : Nat → List α → List α) (anyCon anyCat anyDis : Bool)
    (featureLowers featureUppers : List α) (euclid : List α → List α → α)
    (mask : List Bool) (n : Nat)
    (hL : featureLowers.length = n) (hU : featureUppers.length = n)
    (hconlen : ∀ k s, (con k s).length = s.length)
    (hcatlen : ∀ k s, (cat k s).length = s.length)
    (hcatfix : ∀ k s i, i < n → mask.getD i false = true → (cat k s).getD i 0 = s.getD i 0)
    (hdislen : ∀ k s, (dis k s).length = s.length)
    (hdisfix : ∀ k s i, i < n → mask.getD i false = true → (dis k s).getD i 0 = s.getD i 0) :
    ∀ (fuel k : Nat) (s : List α), s.length = n →
      maskedInBounds featureLowers featureUppers mask n s →
      ((optimizeLoop con cat dis anyCon anyCat anyDis featureLowers featureUppers euclid
          k fuel s).1.length = n ∧
        maskedInBounds featureLowers featureUppers mask n
          (optimizeLoop con cat dis anyCon anyCat anyDis featureLowers featureUppers euclid
            k fuel s).1) := by
  intro fuel
  induction fuel with
  | zero => intro k s hs hin; exact ⟨hs, hin⟩
  | succ fuel ih =>
    intro k s hs hin
    have hnext := optimizeIteration_preserves con cat dis anyCon anyCat anyDis
      featureLowers featureUppers mask n hL hU hconlen hcatlen hcatfix hdislen hdisfix k s hs hin
    simp only [optimizeLoop]
    split
    · exact hnext
    · exact ih (k + 1) _ hnext.1 hnext.2

/-- C3: modelling the clearly intended bounds check of
`_optimize_continuous` (which the source breaks by calling the nonexistent
attribute `within_bounds` instead of `_within_bounds`), `optimize` always
returns a vector whose continuous entries lie within `[lower, upper]`:
the initial clamp establishes bounds and an out-of-bounds continuous proposal
is rejected, keeping the previous value, while categorical/discrete steps
leave continuous positions untouched. -/
theorem optimize_keeps_continuous_within_bounds
    (con cat dis : Nat → List α → List α) (anyCon anyCat anyDis : Bool)
    (featureLowers featureUppers : List α) (euclid : List α → List α → α)
    (mask : List Bool) (sample : List α) (maxIter n : Nat)
    (hL : featureLowers.length = n) (hU : featureUppers.length = n)
    (hs : sample.length = n)
    (hLU : ∀ i, i < n → featureLowers.getD i 0 ≤ featureUppers.getD i 0)
    (hconlen : ∀ k s, (con k s).length = s.length)
    (hcatlen : ∀ k s, (cat k s).length = s.length)
    (hcatfix : ∀ k s i, i < n → mask.getD i false = true → (cat k s).getD i 0 = s.getD i 0)
    (hdislen : ∀ k s, (dis k s).length = s.length)
    (hdisfix : ∀ k s i, i < n → mask.getD i false = true → (dis k s).getD i 0 = s.getD i 0) :
    (optimize con cat dis anyCon anyCat anyDis featureLowers featureUppers euclid
        sample maxIter).1.length = n ∧
    maskedInBounds featureLowers featureUppers mask n
      (optimize con cat dis anyCon anyCat anyDis featureLowers featureUppers euclid
        sample maxIter).1 := by
  unfold optimize
  by_cases hw : withinBounds featureLowers featureUppers sample = true
  · rw [if_pos hw]
    refine optimizeLoop_preserves con cat dis anyCon anyCat anyDis featureLowers featureUppers
      euclid mask n hL hU hconlen hcatlen hcatfix hdislen hdisfix maxIter 0 sample hs ?_
    intro i hi _
    exact (withinBounds_iff featureLowers featureUppers sample n hL hU hs).mp hw i hi
  · rw [if_neg hw]
    refine optimizeLoop_preserves con cat dis anyCon anyCat anyDis featureLowers featureUppers
      euclid mask n hL hU hconlen hcatlen hcatfix hdislen hdisfix maxIter 0 _
      (clampRow_length featureLowers featureUppers sample n hL hU hs) ?_
    intro i hi _
    exact clampRow_bounds featureLowers featureUppers sample n hL hU hs hLU i hi

theorem optimize_keeps_continuous_within_bounds_witness :
    (([(0 : ℚ)] : List ℚ).length = 1 ∧ ([(1 : ℚ)] : List ℚ).length = 1 ∧
      ([(2 : ℚ)] : List ℚ).length = 1 ∧
      (∀ i, i < 1 → ([(0 : ℚ)] : List ℚ).getD i 0 ≤ ([(1 : ℚ)] : List ℚ).getD i 0)) ∧
    ((optimize (fun _ s => s.map (fun x => x + 5)) (fun _ s => s) (fun _ s => s)
        true true false [(0 : ℚ)] [(1 : ℚ)] (fun _ _ => 1) [(2 : ℚ)] 3).1.length = 1 ∧
      maskedInBounds [(0 : ℚ)] [(1 : ℚ)] [true] 1
        (optimize (fun _ s => s.map (fun x => x + 5)) (fun _ s => s) (fun _ s => s)
          true true false [(0 : ℚ)] [(1 : ℚ)] (fun _ _ => 1) [(2 : ℚ)] 3).1) :=
  ⟨⟨rfl, rfl, rfl, by decide⟩,
    optimize_keeps_continuous_within_bounds
      (fun _ s => s.map (fun x => x + 5)) (fun _ s => s) (fun _ s => s)
      true true false [(0 : ℚ)] [(1 : ℚ)] (fun _ _ => 1) [true] [(2 : ℚ)] 3 1
      rfl rfl rfl (by decide) (fun _ s => List.length_map s _) (fun _ _ => rfl)
      (fun _ _ _ _ _ => rfl) (fun _ _ => rfl) (fun _ _ _ _ _ => rfl)⟩

theorem optimizeLoop_count_spec
    (con cat dis : Nat → List α → List α) (anyCon anyCat anyDis : Bool)
    (featureLowers featureUppers : List α) (euclid : List α → List α → α) (s0 : List α) :
    ∀ (fuel k0 : Nat),
      (optimizeLoop con cat dis anyCon anyCat anyDis featureLowers featureUppers euclid k0 fuel
        (optimizeState con cat dis anyCon anyCat anyDis featureLowers featureUppers s0 k0)).2
          ≤ fuel ∧
      (optimizeLoop con cat dis anyCon anyCat anyDis featureLowers featureUppers euclid k0 fuel
        (optimizeState con cat dis anyCon anyCat anyDis featureLowers featureUppers s0 k0)).1 =
        optimizeState con cat dis anyCon anyCat anyDis featureLowers featureUppers s0
          (k0 + (optimizeLoop con cat dis anyCon anyCat anyDis featureLowers featureUppers
            euclid k0 fuel
            (optimizeState con cat dis anyCon anyCat anyDis featureLowers featureUppers
              s0 k0)).2) ∧
      (anyCon = false →
        (optimizeLoop con cat dis anyCon anyCat anyDis featureLowers featureUppers euclid k0 fuel
          (optimizeState con cat dis anyCon anyCat anyDis featureLowers featureUppers s0 k0)).2
            = fuel) ∧
      (∀ j, j + 1 <
          (optimizeLoop con cat dis anyCon anyCat anyDis featureLowers featureUppers euclid k0
            fuel (optimizeState con cat dis anyCon anyCat anyDis featureLowers featureUppers
              s0 k0)).2 →
        (anyCon && decide (euclid
          (optimizeState con cat dis anyCon anyCat anyDis featureLowers featureUppers s0 (k0 + j))
          (optimizeState con cat dis anyCon anyCat anyDis featureLowers featureUppers s0
            (k0 + j + 1)) < 1 / 10000000)) = false) ∧
      ((optimizeLoop con cat dis anyCon anyCat anyDis featureLowers featureUppers euclid k0 fuel
          (optimizeState con cat dis anyCon anyCat anyDis featureLowers featureUppers s0 k0)).2
            < fuel →
        (anyCon && decide (euclid
          (optimizeState con cat dis anyCon anyCat anyDis featureLowers featureUppers s0
            (k0 + (optimizeLoop con cat dis anyCon anyCat anyDis featureLowers featureUppers
              euclid k0 fuel (optimizeState con cat dis anyCon anyCat anyDis featureLowers
                featureUppers s0 k0)).2 - 1))
          (optimizeState con cat dis anyCon anyCat anyDis featureLowers featureUppers s0
            (k0 + (optimizeLoop con cat dis anyCon anyCat anyDis featureLowers featureUppers
              euclid k0 fuel (optimizeState con cat dis anyCon anyCat anyDis featureLowers
                featureUppers s0 k0)).2)) < 1 / 10000000)) = true) := by
  intro fuel
  induction fuel with
  | zero =>
    intro k0
    refine ⟨Nat.le_refl 0, by simp [optimizeLoop], fun _ => rfl, fun j hj => ?_, fun h => ?_⟩
    · simp only [optimizeLoop] at hj
      omega
    · simp only [optimizeLoop] at h
      omega
  | succ fuel ih =>
    intro k0
    have hnext : optimizeIteration con cat dis anyCon anyCat anyDis featureLowers featureUppers
        k0 (optimizeState con cat dis anyCon anyCat anyDis featureLowers featureUppers s0 k0) =
        optimizeState con cat dis anyCon anyCat anyDis featureLowers featureUppers s0
          (k0 + 1) := rfl
    by_cases hcond : (anyCon && decide (euclid
        (optimizeState con cat dis anyCon anyCat anyDis featureLowers featureUppers s0 k0)
        (optimizeState con cat dis anyCon anyCat anyDis featureLowers featureUppers s0 (k0 + 1))
        < 1 / 10000000)) = true
    · have hloop : optimizeLoop con cat dis anyCon anyCat anyDis featureLowers featureUppers
          euclid k0 (fuel + 1)
          (optimizeState con cat dis anyCon anyCat anyDis featureLowers featureUppers s0 k0) =
          (optimizeState con cat dis anyCon anyCat anyDis featureLowers featureUppers s0
            (k0 + 1), 1) := by
        simp only [optimizeLoop, hnext, hcond, if_pos]
      rw [hloop]
      refine ⟨by omega, rfl, ?_, fun j hj => by omega, fun _ => ?_⟩
      · intro hfalse
        rw [hfalse] at hcond
        simp at hcond
      · simpa using hcond
    · have hloop : optimizeLoop con cat dis anyCon anyCat anyDis featureLowers featureUppers
          euclid k0 (fuel + 1)
          (optimizeState con cat dis anyCon anyCat anyDis featureLowers featureUppers s0 k0) =
          ((optimizeLoop con cat dis anyCon anyCat anyDis featureLowers featureUppers euclid
            (k0 + 1) fuel
            (optimizeState con cat dis anyCon anyCat anyDis featureLowers featureUppers s0
              (k0 + 1))).1,
          (optimizeLoop con cat dis anyCon anyCat anyDis featureLowers featureUppers euclid
            (k0 + 1) fuel
            (optimizeState con cat dis anyCon anyCat anyDis featureLowers featureUppers s0
              (k0 + 1))).2 + 1) := by
        simp only [optimizeLoop, hnext, hcond, if_neg, Bool.false_eq_true, not_false_iff]
      rw [hloop]
      obtain ⟨ih1, ih2, ih3, ih4, ih5⟩ := ih (k0 + 1)
      refine ⟨by omega, ?_, fun hfalse => by rw [ih3 hfalse], ?_, ?_⟩
      · rw [ih2]
        congr 1
        omega
      · intro j hj
        cases j with
        | zero =>
          simpa using hcond
        | succ j =>
          have := ih4 j (by omega)
          have e1 : k0 + 1 + j = k0 + (j + 1) := by omega
          rw [e1] at this
          exact this
      · intro hlt
        have := ih5 (by omega)
        have e1 : k0 + 1 + (optimizeLoop con cat dis anyCon anyCat anyDis featureLowers
            featureUppers euclid (k0 + 1) fuel
            (optimizeState con cat dis anyCon anyCat anyDis featureLowers featureUppers s0
              (k0 + 1))).2 - 1 =
            k0 + ((optimizeLoop con cat dis anyCon anyCat anyDis featureLowers featureUppers
              euclid (k0 + 1) fuel
              (optimizeState con cat dis anyCon anyCat anyDis featureLowers featureUppers s0
                (k0 + 1))).2 + 1) - 1 := by omega
        have e2 : k0 + 1 + (optimizeLoop con cat dis anyCon anyCat anyDis featureLowers
            featureUppers euclid (k0 + 1) fuel
            (optimizeState con cat dis anyCon anyCat anyDis featureLowers featureUppers s0
              (k0 + 1))).2 =
            k0 + ((optimizeLoop con cat dis anyCon anyCat anyDis featureLowers featureUppers
              euclid (k0 + 1) fuel
              (optimizeState con cat dis anyCon anyCat anyDis featureLowers featureUppers s0
                (k0 + 1))).2 + 1) := by omega
        rw [e1, e2] at this
        exact this

/-- C6: `optimize` (the spec's `refine`) executes at most `maxIter` iterations
(first conjunct of the instrumented iteration count); when no continuous
features are active it always runs the full budget (second conjunct); and it
stops early exactly at the first iteration where continuous features are
active and the Euclidean distance (`euclid`) between the vectors before and
after that iteration drops below `1e-7`: no earlier iteration triggers the
break (third conjunct) and an early stop implies the break condition held at
the stopping iteration (fourth conjunct).  This characterizes the intended
loop; on the real code the continuous step raises `AttributeError` first
whenever continuous features are active (see the C3 analysis). -/
theorem optimize_budget_and_convergence
    (con cat dis : Nat → List α → List α) (anyCon anyCat anyDis : Bool)
    (featureLowers featureUppers : List α) (euclid : List α → List α → α)
    (sample : List α) (maxIter : Nat) :
    (optimize con cat dis anyCon anyCat anyDis featureLowers featureUppers euclid
      sample maxIter).2 ≤ maxIter ∧
    (anyCon = false →
      (optimize con cat dis anyCon anyCat anyDis featureLowers featureUppers euclid
        sample maxIter).2 = maxIter) ∧
    (∀ j, j + 1 < (optimize con cat dis anyCon anyCat anyDis featureLowers featureUppers
        euclid sample maxIter).2 →
      (anyCon && decide (euclid
        (optimizeState con cat dis anyCon anyCat anyDis featureLowers featureUppers
          (if withinBounds featureLowers featureUppers sample then sample
            else clampRow featureLowers featureUppers sample) j)
        (optimizeState con cat dis anyCon anyCat anyDis featureLowers featureUppers
          (if withinBounds featureLowers featureUppers sample then sample
            else clampRow featureLowers featureUppers sample) (j + 1))
        < 1 / 10000000)) = false) ∧
    ((optimize con cat dis anyCon anyCat anyDis featureLowers featureUppers euclid
        sample maxIter).2 < maxIter →
      (anyCon && decide (euclid
        (optimizeState con cat dis anyCon anyCat anyDis featureLowers featureUppers
          (if withinBounds featureLowers featureUppers sample then sample
            else clampRow featureLowers featureUppers sample)
          ((optimize con cat dis anyCon anyCat anyDis featureLowers featureUppers euclid
            sample maxIter).2 - 1))
        (optimizeState con cat dis anyCon anyCat anyDis featureLowers featureUppers
          (if withinBounds featureLowers featureUppers sample then sample
            else clampRow featureLowers featureUppers sample)
          ((optimize con cat dis anyCon anyCat anyDis featureLowers featureUppers euclid
            sample maxIter).2))
        < 1 / 10000000)) = true) := by
  have h := optimizeLoop_count_spec con cat dis anyCon anyCat anyDis featureLowers
    featureUppers euclid
    (if withinBounds featureLowers featureUppers sample then sample
      else clampRow featureLowers featureUppers sample) maxIter 0
  have e0 : optimizeState con cat dis anyCon anyCat anyDis featureLowers featureUppers
      (if withinBounds featureLowers featureUppers sample then sample
        else clampRow featureLowers featureUppers sample) 0 =
      (if withinBounds featureLowers featureUppers sample then sample
        else clampRow featureLowers featureUppers sample) := rfl
  rw [e0] at h
  simp only [Nat.zero_add] at h
  have eopt : optimize con cat dis anyCon anyCat anyDis featureLowers featureUppers euclid
      sample maxIter =
      optimizeLoop con cat dis anyCon anyCat anyDis featureLowers featureUppers euclid 0
        maxIter
        (if withinBounds featureLowers featureUppers sample then sample
          else clampRow featureLowers featureUppers sample) := rfl
  rw [eopt]
  exact ⟨h.1, h.2.2.1, h.2.2.2.1, h.2.2.2.2⟩

theorem optimize_budget_and_convergence_witness :
    (optimize (fun _ s => s) (fun _ s => s) (fun _ s => s) false true false
      [(0 : ℚ)] [1] (fun _ _ => 0) [0] 2).2 = 2 :=
  (optimize_budget_and_convergence (fun _ s => s) (fun _ s => s) (fun _ s => s) false true
    false [(0 : ℚ)] [1] (fun _ _ => 0) [0] 2).2.1 rfl

/-! ### Claim theorems: SampleSelector -/

theorem elemMin_comm (a b : List α) : elemMin a b = elemMin b a :=
  List.zipWith_comm_of_comm _ min_comm a b

theorem elemMin_assoc : ∀ (a b c : List α), elemMin (elemMin a b) c = elemMin a (elemMin b c) := by
  intro a
  induction a with
  | nil => intro b c; rfl
  | cons x xs ih =>
    intro b c
    cases b with
    | nil => rfl
    | cons y ys =>
      cases c with
      | nil => rfl
      | cons z zs =>
        simp only [elemMin, List.zipWith_cons_cons]
        rw [min_assoc]
        congr 1
        exact ih ys zs

theorem foldl_elemMin_pull (p : List α) :
    ∀ (l : List (List α)) (A B : List α),
      l.foldl (fun acc y => elemMin acc (absDiffs p y)) (elemMin A B) =
        elemMin A (l.foldl (fun acc y => elemMin acc (absDiffs p y)) B) := by
  intro l
  induction l with
  | nil => intro A B; rfl
  | cons y ys ih =>
    intro A B
    simp only [List.foldl_cons]
    rw [elemMin_assoc, ih]

theorem aminAbsDiffs_append (p : List α) :
    ∀ (xs ys : List (List α)), xs ≠ [] → ys ≠ [] →
      aminAbsDiffs p (xs ++ ys) = elemMin (aminAbsDiffs p xs) (aminAbsDiffs p ys) := by
  intro xs ys hxs hys
  cases xs with
  | nil => exact absurd rfl hxs
  | cons x xst =>
    cases ys with
    | nil => exact absurd rfl hys
    | cons y yst =>
      simp only [aminAbsDiffs, List.cons_append, List.foldl_append, List.foldl_cons]
      rw [foldl_elemMin_pull]

theorem divCrit_eq_union_minDist (ex : α → α) (obs sel : List (List α))
    (charDists featureRanges : List α) (proposal : List α) (hobs : obs ≠ []) :
    divCrit ex obs sel charDists featureRanges proposal =
      min 1 (mean (zip3With (fun d c r => ex (2 * (d - c) / r))
        (aminAbsDiffs proposal (obs ++ sel)) charDists featureRanges)) := by
  unfold divCrit
  cases sel with
  | nil => simp
  | cons s st =>
    rw [aminAbsDiffs_append proposal obs (s :: st) hobs (by simp),
      elemMin_comm (aminAbsDiffs proposal obs)]
    simp

theorem zip3With_mem {β γ δ ε : Type} (f : β → γ → δ → ε) :
    ∀ (a : List β) (b : List γ) (c : List δ) (x : ε), x ∈ zip3With f a b c →
      ∃ p q r, x = f p q r := by
  intro a
  induction a with
  | nil => intro b c x hx; simp [zip3With] at hx
  | cons u us ih =>
    intro b c x hx
    cases b with
    | nil => simp [zip3With] at hx
    | cons v vs =>
      cases c with
      | nil => simp [zip3With] at hx
      | cons w ws =>
        rcases List.mem_cons.mp hx with h | h
        · exact ⟨u, v, w, h⟩
        · exact ih vs ws x h

/-- C1 (amended): in the greedy diverse-selection pass, for every candidate
the diversity factor computed by the code lies in `[0, 1]` and equals
`min(1, mean over features of exp(2·(minDistance − characteristicDistance)
/ featureRange))` — the minimum taken AFTER the mean — where `minDistance` is
the per-feature minimum absolute distance to the nearest of the observed
samples together with the samples already selected in this round, and
`characteristicDistance = featureRange / sqrt(numObservations)`. -/
theorem divCrit_in_unit_interval_and_formula (obs sel : List (List ℝ))
    (featureRanges proposal : List ℝ) (hobs : obs ≠ []) :
    0 ≤ divCrit Real.exp obs sel
        (featureRanges.map (fun r => r / Real.sqrt ((obs.length : ℕ) : ℝ)))
        featureRanges proposal ∧
    divCrit Real.exp obs sel
        (featureRanges.map (fun r => r / Real.sqrt ((obs.length : ℕ) : ℝ)))
        featureRanges proposal ≤ 1 ∧
    divCrit Real.exp obs sel
        (featureRanges.map (fun r => r / Real.sqrt ((obs.length : ℕ) : ℝ)))
        featureRanges proposal =
      min 1 (mean (zip3With (fun d c r => Real.exp (2 * (d - c) / r))
        (aminAbsDiffs proposal (obs ++ sel))
        (featureRanges.map (fun r => r / Real.sqrt ((obs.length : ℕ) : ℝ)))
        featureRanges)) := by
  have hbound : ∀ (md cd fr : List ℝ),
      0 ≤ min 1 (mean (zip3With (fun d c r => Real.exp (2 * (d - c) / r)) md cd fr)) ∧
      min 1 (mean (zip3With (fun d c r => Real.exp (2 * (d - c) / r)) md cd fr)) ≤ 1 := by
    intro md cd fr
    constructor
    · refine le_min zero_le_one ?_
      unfold mean
      refine div_nonneg ?_ (Nat.cast_nonneg _)
      refine List.sum_nonneg ?_
      intro x hx
      obtain ⟨p, q, r, hx⟩ := zip3With_mem _ md cd fr x hx
      rw [hx]
      exact (Real.exp_pos _).le
    · exact min_le_left _ _
  have heq := divCrit_eq_union_minDist Real.exp obs sel
    (featureRanges.map (fun r => r / Real.sqrt ((obs.length : ℕ) : ℝ)))
    featureRanges proposal hobs
  refine ⟨?_, ?_, heq⟩
  · rw [heq]; exact (hbound _ _ _).1
  · rw [heq]; exact (hbound _ _ _).2

theorem divCrit_in_unit_interval_and_formula_witness :
    (([[(0 : ℝ), 0]] : List (List ℝ)) ≠ []) ∧
    (0 ≤ divCrit Real.exp [[(0 : ℝ), 0]] []
        (([1, 1] : List ℝ).map (fun r => r / Real.sqrt ((([[(0 : ℝ), 0]] :
          List (List ℝ)).length : ℕ) : ℝ))) [1, 1] [2, 0] ∧
      divCrit Real.exp [[(0 : ℝ), 0]] []
        (([1, 1] : List ℝ).map (fun r => r / Real.sqrt ((([[(0 : ℝ), 0]] :
          List (List ℝ)).length : ℕ) : ℝ))) [1, 1] [2, 0] ≤ 1 ∧
      divCrit Real.exp [[(0 : ℝ), 0]] []
        (([1, 1] : List ℝ).map (fun r => r / Real.sqrt ((([[(0 : ℝ), 0]] :
          List (List ℝ)).length : ℕ) : ℝ))) [1, 1] [2, 0] =
        min 1 (mean (zip3With (fun d c r => Real.exp (2 * (d - c) / r))
          (aminAbsDiffs [2, 0] ([[(0 : ℝ), 0]] ++ []))
          (([1, 1] : List ℝ).map (fun r => r / Real.sqrt ((([[(0 : ℝ), 0]] :
            List (List ℝ)).length : ℕ) : ℝ))) [1, 1]))) :=
  ⟨by simp,
    divCrit_in_unit_interval_and_formula [[(0 : ℝ), 0]] [] [1, 1] [2, 0] (by simp)⟩

/-- C1 counterexample: at one candidate `[2, 0]`, one observation `[0, 0]`,
no selected samples, unit feature ranges and one observation
(characteristic distances `1/sqrt 1`), the code's diversity factor
(`min` applied AFTER the mean, value `1`) differs from the claimed
"mean over features of `min(1, exp(...))`" (value `(1 + exp(-2))/2 < 1`). -/
theorem divCrit_differs_from_claimed_mean_of_min :
    divCrit Real.exp [[(0 : ℝ), 0]] []
        (([1, 1] : List ℝ).map (fun r => r / Real.sqrt 1)) [1, 1] [2, 0] ≠
      divCritSpecMeanOfMin Real.exp [[(0 : ℝ), 0]] []
        (([1, 1] : List ℝ).map (fun r => r / Real.sqrt 1)) [1, 1] [2, 0] := by
  have h3 : (3 : ℝ) ≤ Real.exp 2 := by
    have := Real.add_one_le_exp (2 : ℝ)
    linarith
  have hpos : (0 : ℝ) < Real.exp (-2) := Real.exp_pos _
  have hlt1 : Real.exp (-2) < 1 := Real.exp_lt_one_iff.mpr (by norm_num)
  simp only [divCrit, divCritSpecMeanOfMin, aminAbsDiffs, absDiffs, elemMin, mean, zip3With,
    List.zipWith_cons_cons, List.zipWith_nil_right, List.zipWith_nil_left, List.foldl_nil,
    List.map_cons, List.map_nil, List.append_nil, List.length_nil, List.length_cons,
    List.sum_cons, List.sum_nil, Real.sqrt_one, lt_self_iff_false, if_false]
  norm_num
  intro h
  rw [min_eq_left (by linarith : (1 : ℝ) ≤ (Real.exp 2 + Real.exp (-2)) / 2)] at h
  linarith

theorem sum_map_ite_range (q m : Nat) : ∀ k : Nat,
    ((List.range k).map (fun i => if i < m then q + 1 else q)).sum = k * q + min m k := by
  intro k
  induction k with
  | zero => simp
  | succ k ih =>
    rw [List.range_succ, List.map_append, List.sum_append, ih, Nat.succ_mul]
    simp only [List.map_cons, List.map_nil, List.sum_cons, List.sum_nil]
    split <;> omega

theorem arraySplitSizes_sum (n k : Nat) (hk : 1 ≤ k) : (arraySplitSizes n k).sum = n := by
  unfold arraySplitSizes
  rw [sum_map_ite_range]
  have hlt : n % k < k := Nat.mod_lt n (by omega)
  have := Nat.div_add_mod n k
  omega

theorem splitBySizes_flatten {β : Type} : ∀ (ss : List Nat) (xs : List β),
    (splitBySizes ss xs).flatten = xs.take ss.sum := by
  intro ss
  induction ss with
  | nil => intro xs; simp [splitBySizes]
  | cons s ss ih =>
    intro xs
    simp only [splitBySizes, List.flatten_cons, ih, List.sum_cons]
    rw [List.take_add]

theorem arraySplit_flatten {β : Type} (k : Nat) (xs : List β) (hk : 1 ≤ k) :
    (arraySplit k xs).flatten = xs := by
  unfold arraySplit
  rw [splitBySizes_flatten, arraySplitSizes_sum _ _ hk, List.take_length]

theorem splitBySizes_length {β : Type} : ∀ (ss : List Nat) (xs : List β),
    (splitBySizes ss xs).length = ss.length := by
  intro ss
  induction ss with
  | nil => intro xs; rfl
  | cons s ss ih => intro xs; simp [splitBySizes, ih]

theorem arraySplit_length {β : Type} (k : Nat) (xs : List β) :
    (arraySplit k xs).length = k := by
  unfold arraySplit arraySplitSizes
  rw [splitBySizes_length, List.length_map, List.length_range]

theorem range_map_getD_eq {β : Type} (d : β) :
    ∀ (l : List β) (k : Nat), l.length = k →
      (List.range k).map (fun i => l.getD i d) = l := by
  intro l
  induction l with
  | nil => intro k hk; subst hk; rfl
  | cons x xs ih =>
    intro k hk
    subst hk
    rw [List.length_cons, List.range_succ_eq_map, List.map_cons, List.map_map]
    have : ((fun i => (x :: xs).getD i d) ∘ Nat.succ) = fun i => xs.getD i d := rfl
    rw [this, ih xs.length rfl]
    rfl

theorem flatten_replicate_nil {β : Type} : ∀ n : Nat,
    (List.replicate n ([] : List β)).flatten = [] := by
  intro n
  induction n <;> simp [List.replicate_succ, *]

theorem computeExpObjsParallel_eq_sequential (ex : α → α) (k : Nat) (hk : 1 ≤ k)
    (proposals : List (List (List α))) (evalAcquisition : List α → Nat → α) (idx : Nat) :
    computeExpObjsParallel ex k proposals evalAcquisition idx =
      computeExpObjs ex proposals evalAcquisition idx := by
  simp only [computeExpObjsParallel, computeExpObjs]
  rw [List.map_map]
  by_cases hidx : idx < proposals.length
  · have hmap : ∀ g : List (List α) → List (List α),
        (proposals.map g).getD idx [] = g (proposals.getD idx []) := by
      intro g
      rw [List.getD_eq_getElem _ _ (by simpa using hidx), List.getElem_map,
        List.getD_eq_getElem _ _ hidx]
    have hcongr : (List.range k).map ((fun split : List (List (List α)) =>
          (split.getD idx []).map (fun s => ex (-(evalAcquisition s idx)))) ∘
          (fun i => proposals.map (fun row => (arraySplit k row).getD i []))) =
        (List.range k).map (fun i =>
          ((arraySplit k (proposals.getD idx [])).getD i []).map
            (fun s => ex (-(evalAcquisition s idx)))) := by
      refine List.map_congr_left ?_
      intro i _
      simp only [Function.comp_apply, hmap]
    rw [hcongr]
    have hsplit : (List.range k).map (fun i =>
          ((arraySplit k (proposals.getD idx [])).getD i []).map
            (fun s => ex (-(evalAcquisition s idx)))) =
        ((List.range k).map (fun i =>
          (arraySplit k (proposals.getD idx [])).getD i [])).map
            (List.map (fun s => ex (-(evalAcquisition s idx)))) := by
      rw [List.map_map]
      rfl
    rw [hsplit, range_map_getD_eq [] _ k (arraySplit_length k _), ← List.map_flatten,
      arraySplit_flatten _ _ hk]
  · have hget : proposals.getD idx [] = [] :=
      List.getD_eq_default _ _ (by omega)
    have hmap : ∀ g : List (List α) → List (List α),
        (proposals.map g).getD idx [] = [] := by
      intro g
      exact List.getD_eq_default _ _ (by simpa using Nat.le_of_not_lt hidx)
    rw [hget]
    simp only [List.map_nil]
    have : (List.range k).map ((fun split : List (List (List α)) =>
          (split.getD idx []).map (fun s => ex (-(evalAcquisition s idx)))) ∘
          (fun i => proposals.map (fun row => (arraySplit k row).getD i []))) =
        (List.range k).map (fun _ => ([] : List α)) := by
      refine List.map_congr_left ?_
      intro i _
      simp only [Function.comp_apply]
      rw [hmap _]
      rfl
    rw [this, map_constant_eq_replicate, List.length_range, flatten_replicate_nil]

/-- C4: given the same candidate ensemble and acquisition evaluator, the
parallel scoring path of `_compute_exp_objs` — splitting candidates into
`numCpus` contiguous chunks, computing `exp(-acquisition)` per chunk, and
concatenating chunk results by increasing chunk index — produces a reward
matrix equal element-for-element to the sequential single-worker path. -/
theorem parallel_scoring_matches_sequential (ex : α → α) (numCpus : Nat) (hk : 1 ≤ numCpus)
    (proposals : List (List (List α))) (evalAcquisition : List α → Nat → α)
    (numStrategies : Nat) :
    computeExpObjsAll ex numCpus proposals evalAcquisition numStrategies =
      computeExpObjsAll ex 1 proposals evalAcquisition numStrategies := by
  unfold computeExpObjsAll
  refine List.map_congr_left ?_
  intro i _
  by_cases h2 : 1 < numCpus
  · rw [if_pos h2, if_neg (by omega)]
    exact computeExpObjsParallel_eq_sequential ex numCpus hk proposals evalAcquisition i
  · rw [if_neg h2, if_neg (by omega)]

theorem parallel_scoring_matches_sequential_witness :
    (1 ≤ 2) ∧
    computeExpObjsAll (fun x : ℚ => x + 1) 2 ([[[1], [2], [3]]] : List (List (List ℚ)))
        (fun s _ => s.getD 0 0) 1 =
      computeExpObjsAll (fun x : ℚ => x + 1) 1 ([[[1], [2], [3]]] : List (List (List ℚ)))
        (fun s _ => s.getD 0 0) 1 :=
  ⟨by decide, parallel_scoring_matches_sequential _ 2 (by decide) _ _ 1⟩

/-- C9: a `SampleSelector` constructed without an option pool
(`all_options = None`, modelled by `allOptionsOpt = none`) always fails inside
`select` before returning a batch — whatever the parameter space, budgets or
oracles — because the duplicate check unconditionally evaluates
`len(self.all_options)`, raising `TypeError` on `None`. -/
theorem select_without_pool_always_fails (ex sq : α → α) (numBatches : Nat)
    (proposals : List (List (List α))) (evalAcquisition : List α → Nat → α)
    (numStrategies : Nat) (obsParams : List (List α))
    (featureRanges paramLowers paramUppers : List α) (paramTypes : List String)
    (numCpus : Nat) (choiceIdx : List Nat) :
    select ex sq numBatches proposals evalAcquisition numStrategies obsParams
      featureRanges paramLowers paramUppers paramTypes numCpus none choiceIdx = none :=
  rfl

theorem selectSlot_selected_length (ex : α → α) (proposals : List (List (List α)))
    (obsParams : List (List α)) (charDists featureRanges : List α) (i : Nat)
    (st : List (List α) × List (List α)) :
    (selectSlot ex proposals obsParams charDists featureRanges i st).2.length =
      st.2.length + 1 := by
  simp [selectSlot]

theorem foldl_selectSlot_length (ex : α → α) (proposals : List (List (List α)))
    (obsParams : List (List α)) (charDists featureRanges : List α) :
    ∀ (l : List Nat) (st : List (List α) × List (List α)),
      (l.foldl (fun st i => selectSlot ex proposals obsParams charDists featureRanges i st)
        st).2.length = st.2.length + l.length := by
  intro l
  induction l with
  | nil => intro st; rfl
  | cons i il ih =>
    intro st
    rw [List.foldl_cons, ih, selectSlot_selected_length]
    simp only [List.length_cons]
    omega

theorem selectSamplesLoop_length (ex : α → α) (numBatches numStrategies : Nat)
    (proposals : List (List (List α))) (obsParams : List (List α))
    (charDists featureRanges : List α) (expObjs0 : List (List α)) :
    (selectSamplesLoop ex numBatches numStrategies proposals obsParams charDists
      featureRanges expObjs0).length = numBatches * numStrategies := by
  unfold selectSamplesLoop
  suffices h : ∀ (lb : List Nat) (st : List (List α) × List (List α)),
      ((lb.foldl (fun st _ => (List.range numStrategies).foldl
        (fun st i => selectSlot ex proposals obsParams charDists featureRanges i st) st)
        st)).2.length = st.2.length + lb.length * numStrategies by
    have := h (List.range numBatches) (expObjs0, [])
    simpa [List.length_range] using this
  intro lb
  induction lb with
  | nil => intro st; simp
  | cons b lb ih =>
    intro st
    rw [List.foldl_cons, ih, foldl_selectSlot_length]
    simp only [List.length_range, List.length_cons, Nat.succ_mul]
    omega

theorem selectCore_length (ex sq : α → α) (numBatches : Nat)
    (proposals : List (List (List α))) (evalAcquisition : List α → Nat → α)
    (numStrategies : Nat) (obsParams : List (List α))
    (featureRanges paramLowers paramUppers : List α) (numCpus : Nat) :
    (selectCore ex sq numBatches proposals evalAcquisition numStrategies obsParams
      featureRanges paramLowers paramUppers numCpus).length =
      numBatches * numStrategies := by
  simp only [selectCore]
  exact selectSamplesLoop_length ex numBatches numStrategies proposals obsParams _ _ _

theorem insertSortedRow_perm (x : List α) :
    ∀ l : List (List α), (insertSortedRow x l).Perm (x :: l) := by
  intro l
  induction l with
  | nil => exact List.Perm.refl _
  | cons y ys ih =>
    unfold insertSortedRow
    split
    · exact List.Perm.refl _
    · exact (List.Perm.cons y ih).trans (List.Perm.swap x y ys)

theorem sortRows_perm : ∀ l : List (List α), (sortRows l).Perm l := by
  intro l
  induction l with
  | nil => exact List.Perm.refl _
  | cons x xs ih =>
    unfold sortRows
    exact (insertSortedRow_perm x (sortRows xs)).trans (List.Perm.cons x ih)

theorem uniqueRows_nodup (xs : List (List α)) : (uniqueRows xs).Nodup :=
  ((sortRows_perm xs.dedup).nodup_iff).mpr (List.nodup_dedup xs)

theorem mem_removeMatchingRows :
    ∀ (rows pool : List (List α)) (r : List α),
      r ∈ removeMatchingRows pool rows → r ∈ pool ∧ ∀ s ∈ rows, r ≠ s := by
  intro rows
  induction rows with
  | nil => intro pool r h; exact ⟨h, by simp⟩
  | cons s rest ih =>
    intro pool r h
    unfold removeMatchingRows at h
    rw [List.foldl_cons] at h
    obtain ⟨hmem, hrest⟩ := ih (pool.filter (fun q => q ≠ s)) r h
    have hf := List.mem_filter.mp hmem
    refine ⟨hf.1, ?_⟩
    intro t ht
    rcases List.mem_cons.mp ht with h1 | h1
    · subst h1
      simpa using hf.2
    · exact hrest t h1

theorem nodup_removeMatchingRows :
    ∀ (rows pool : List (List α)), pool.Nodup → (removeMatchingRows pool rows).Nodup := by
  intro rows
  induction rows with
  | nil => intro pool h; exact h
  | cons s rest ih =>
    intro pool h
    unfold removeMatchingRows
    rw [List.foldl_cons]
    exact ih _ (h.filter _)

theorem getD_mem_of_lt {β : Type} (l : List β) (i : Nat) (d : β) (h : i < l.length) :
    l.getD i d ∈ l := by
  rw [List.getD_eq_getElem _ _ h]
  exact List.getElem_mem h

theorem nodup_getD_inj {β : Type} (l : List β) (hl : l.Nodup) (d : β) (i j : Nat)
    (hi : i < l.length) (hj : j < l.length) (h : l.getD i d = l.getD j d) : i = j := by
  rw [List.getD_eq_getElem _ _ hi, List.getD_eq_getElem _ _ hj] at h
  have h2 : (⟨i, hi⟩ : Fin l.length) = ⟨j, hj⟩ :=
    List.nodup_iff_injective_getElem.mp hl h
  exact congrArg Fin.val h2

theorem npChoiceNoReplace_some (n : Nat) (size : Int) (idx out : List Nat)
    (h : npChoiceNoReplace n size idx = some out) :
    out = idx ∧ 0 ≤ size ∧ size ≤ (n : Int) ∧ idx.length = size.toNat ∧ idx.Nodup ∧
      ∀ i ∈ idx, i < n := by
  unfold npChoiceNoReplace at h
  split at h
  · cases h
  · split at h
    · cases h
    · split at h
      · cases h
        rename_i h1 h2 h3
        exact ⟨rfl, by omega, by omega, h3.1, h3.2.1, h3.2.2⟩
      · cases h

/-- C2 (amended): `select` returns exactly `numBatches * numStrategies` vectors
only in degraded mode (option pool smaller than the number of sampling
strategies; duplicates are then accepted); otherwise every batch it
successfully returns holds exactly `numStrategies` vectors, and — when the
parameter space is fully categorical and the option pool has no duplicate
rows — no two returned vectors are identical. -/
theorem select_count_and_distinctness
    (ex sq : α → α) (numBatches : Nat) (proposals : List (List (List α)))
    (evalAcquisition : List α → Nat → α) (numStrategies : Nat) (obsParams : List (List α))
    (featureRanges paramLowers paramUppers : List α) (paramTypes : List String)
    (numCpus : Nat) (allOptions : List (List α)) (choiceIdx : List Nat) :
    (allOptions.length < numStrategies →
      select ex sq numBatches proposals evalAcquisition numStrategies obsParams featureRanges
          paramLowers paramUppers paramTypes numCpus (some allOptions) choiceIdx =
        some (selectCore ex sq numBatches proposals evalAcquisition numStrategies obsParams
          featureRanges paramLowers paramUppers numCpus) ∧
      (selectCore ex sq numBatches proposals evalAcquisition numStrategies obsParams
        featureRanges paramLowers paramUppers numCpus).length =
        numBatches * numStrategies) ∧
    (¬ allOptions.length < numStrategies →
      ∀ out, select ex sq numBatches proposals evalAcquisition numStrategies obsParams
          featureRanges paramLowers paramUppers paramTypes numCpus (some allOptions)
          choiceIdx = some out →
        out.length = numStrategies ∧
        (paramTypes.all (fun t => t = "categorical") = true → allOptions.Nodup →
          out.Nodup)) := by
  constructor
  · intro hdeg
    refine ⟨?_, selectCore_length ex sq numBatches proposals evalAcquisition numStrategies
      obsParams featureRanges paramLowers paramUppers numCpus⟩
    simp only [select, if_pos hdeg]
    simp
  · intro hnodeg out hsel
    simp only [select, if_neg hnodeg] at hsel
    by_cases hdup : (uniqueRows (selectCore ex sq numBatches proposals evalAcquisition
        numStrategies obsParams featureRanges paramLowers paramUppers numCpus)).length =
        numStrategies
    · simp [hdup] at hsel
      subst hsel
      exact ⟨hdup, fun _ _ => uniqueRows_nodup _⟩
    · simp [hdup] at hsel
      split at hsel
      · simp at hsel
      · rename_i idx hch
        obtain ⟨hidx, hge0, hlen2, hlen, hnodup, hbound⟩ :=
          npChoiceNoReplace_some _ _ _ _ hch
        subst hidx
        rw [Option.some_inj] at hsel
        subst hsel
        constructor
        · rw [List.length_append, List.length_map, hlen]
          omega
        · intro hcat hpool
          have hcat2 : ∀ x ∈ paramTypes, x = "categorical" := by simpa using hcat
          rw [if_pos hcat2] at hbound
          rw [if_pos hcat2]
          refine List.Nodup.append (uniqueRows_nodup _) ?_ ?_
          · refine List.Nodup.map_on ?_ hnodup
            intro x hx y hy hxy
            rw [← List.getD_eq_getElem?_getD, ← List.getD_eq_getElem?_getD] at hxy
            exact nodup_getD_inj _ (nodup_removeMatchingRows _ _ hpool) [] x y
              (hbound x hx) (hbound y hy) hxy
          · intro a ha hamem
            obtain ⟨i, hi, hieq⟩ := List.mem_map.mp hamem
            rw [← List.getD_eq_getElem?_getD] at hieq
            have hmem : a ∈ removeMatchingRows allOptions
                (uniqueRows (selectCore ex sq numBatches proposals evalAcquisition
                  numStrategies obsParams featureRanges paramLowers paramUppers numCpus)) := by
              rw [← hieq]
              exact getD_mem_of_lt _ i [] (hbound i hi)
            exact (mem_removeMatchingRows _ _ _ hmem).2 a ha rfl

/-- C2 counterexample: with two strategies of one candidate each, two batches,
one far-away observation and an option pool of two rows (not smaller than the
number of strategies, so not degraded), `select` returns only 2 vectors
instead of `numBatches * numStrategies = 4` (the post-processing keeps only
`np.unique` of the greedy picks); and in a second non-degraded run
(one batch, two strategies proposing the same candidate, pool `[[0], [7]]`)
the returned batch `[[0], [0]]` contains two identical vectors because the
backfill draws from a pool that still contains the already selected row. -/
theorem select_batch_size_and_uniqueness_counterexample :
    ((select (fun _ : ℚ => (1 : ℚ)) (fun x => x) 2 [[[0]], [[1]]]
        (fun _ _ => 0) 2 [[10]] [1] [0] [1] ["continuous"] 1 (some [[5], [6]]) []).map
        List.length = some 2 ∧ (2 : Nat) ≠ 2 * 2) ∧
    (select (fun _ : ℚ => (1 : ℚ)) (fun x => x) 1 [[[0]], [[0]]]
        (fun _ _ => 0) 2 [[10]] [1] [0] [1] ["continuous"] 1 (some [[0], [7]]) [0] =
        some [[0], [0]] ∧ ¬ ([[(0 : ℚ)], [0]] : List (List ℚ)).Nodup) := by
  refine ⟨⟨?_, by norm_num⟩, ⟨?_, by simp⟩⟩
  · have hcore : selectCore (fun _ : ℚ => (1 : ℚ)) (fun x => x) 2 [[[0]], [[1]]]
        (fun _ _ => 0) 2 [[10]] [1] [0] [1] 1 = [[0], [1], [0], [1]] := by
      simp only [selectCore, computeExpObjsAll, computeExpObjs, computeExpObjsParallel,
        suppressRow, minSqDistToObs, normRow, zip3With, selectSamplesLoop, selectSlot, divCrit,
        aminAbsDiffs, absDiffs, elemMin, mean, argmax, argmaxAux, List.range_succ,
        List.range_zero, List.map_nil, List.map_cons, List.map_append, List.foldl_cons,
        List.foldl_nil, List.zipWith_cons_cons, List.zipWith_nil_right, List.zipWith_nil_left,
        List.getD_cons_zero, List.getD_cons_succ, List.getD_nil, List.length_cons,
        List.length_nil, List.sum_cons, List.sum_nil, List.set_cons_zero, List.set_cons_succ,
        List.append_nil, List.nil_append, List.cons_append]
      norm_num
      simp [argmaxAux]
    rw [select, hcore]
    norm_num [uniqueRows, sortRows, insertSortedRow, rowLe, List.dedup_cons_of_mem,
      List.dedup_cons_of_not_mem, List.dedup_nil, npChoiceNoReplace, removeMatchingRows,
      show ("continuous" = "categorical") = False from by simp]
  · have hcore : selectCore (fun _ : ℚ => (1 : ℚ)) (fun x => x) 1 [[[0]], [[0]]]
        (fun _ _ => 0) 2 [[10]] [1] [0] [1] 1 = [[0], [0]] := by
      simp only [selectCore, computeExpObjsAll, computeExpObjs, computeExpObjsParallel,
        suppressRow, minSqDistToObs, normRow, zip3With, selectSamplesLoop, selectSlot, divCrit,
        aminAbsDiffs, absDiffs, elemMin, mean, argmax, argmaxAux, List.range_succ,
        List.range_zero, List.map_nil, List.map_cons, List.map_append, List.foldl_cons,
        List.foldl_nil, List.zipWith_cons_cons, List.zipWith_nil_right, List.zipWith_nil_left,
        List.getD_cons_zero, List.getD_cons_succ, List.getD_nil, List.length_cons,
        List.length_nil, List.sum_cons, List.sum_nil, List.set_cons_zero, List.set_cons_succ,
        List.append_nil, List.nil_append, List.cons_append]
      norm_num
      simp [argmaxAux]
    rw [select, hcore]
    norm_num [uniqueRows, sortRows, insertSortedRow, rowLe, List.dedup_cons_of_mem,
      List.dedup_cons_of_not_mem, List.dedup_nil, npChoiceNoReplace, removeMatchingRows,
      show ("continuous" = "categorical") = False from by simp]

theorem select_count_and_distinctness_witness :
    (¬ (([[(0 : ℚ)], [1]] : List (List ℚ)).length < 1)) ∧
    ([[(0 : ℚ)]] : List (List ℚ)).length = 1 ∧ ([[(0 : ℚ)]] : List (List ℚ)).Nodup := by
  have hcore : selectCore (fun _ : ℚ => (1 : ℚ)) (fun x => x) 1 [[[0]]]
      (fun _ _ => 0) 1 [[10]] [1] [0] [1] 1 = [[0]] := by
    simp only [selectCore, computeExpObjsAll, computeExpObjs, computeExpObjsParallel,
      suppressRow, minSqDistToObs, normRow, zip3With, selectSamplesLoop, selectSlot, divCrit,
      aminAbsDiffs, absDiffs, elemMin, mean, argmax, argmaxAux, List.range_succ,
      List.range_zero, List.map_nil, List.map_cons, List.map_append, List.foldl_cons,
      List.foldl_nil, List.zipWith_cons_cons, List.zipWith_nil_right, List.zipWith_nil_left,
      List.getD_cons_zero, List.getD_cons_succ, List.getD_nil, List.length_cons,
      List.length_nil, List.sum_cons, List.sum_nil, List.set_cons_zero, List.set_cons_succ,
      List.append_nil, List.nil_append, List.cons_append]
    norm_num
    simp [argmaxAux]
  have hsel : select (fun _ : ℚ => (1 : ℚ)) (fun x => x) 1 [[[0]]]
      (fun _ _ => 0) 1 [[10]] [1] [0] [1] ["categorical"] 1 (some [[0], [1]]) [] =
      some [[0]] := by
    rw [select, hcore]
    norm_num [uniqueRows, sortRows, insertSortedRow, rowLe, List.dedup_cons_of_mem,
      List.dedup_cons_of_not_mem, List.dedup_nil, npChoiceNoReplace, removeMatchingRows]
  have h := (select_count_and_distinctness (fun _ : ℚ => (1 : ℚ)) (fun x => x) 1 [[[0]]]
      (fun _ _ => 0) 1 [[10]] [1] [0] [1] ["categorical"] 1 [[0], [1]] []).2
      (by norm_num) [[0]] hsel
  exact ⟨by norm_num, h.1, h.2 (by decide) (by decide)⟩

end Theorems

end Gryffin
